import Mathlib

/-!
# smallsheep: yogurt classification and batch transform

A shallow embedding of `src/main.go`.

Modelling decisions.

* A Go `string` is modelled as a Lean `String`, a sequence of Unicode code
  points. Titles reach `isYogurtProduct` from `json.Unmarshal`, which always
  yields valid UTF-8, and every search term is ASCII, so byte-level substring
  search and code-point-level substring search agree.
* `strings.ToLower` maps the string rune by rune. On ASCII runes it adds 32 to
  `A`..`Z` and keeps everything else. On non-ASCII runes it consults the
  Unicode case tables of the Go standard library, which are not part of this
  repository: that table is the parameter `u` of `ToLower`.
* `float64` is never inspected by the program, only copied. It is modelled by
  its IEEE-754 bit pattern.
* Go `int` counters are modelled by `Nat`: they are bounded by the length of
  the input slice, so they cannot overflow.
* A run of `main` is a function of `os.Args` and of the file system state. The
  calls into `os` and `encoding/json` are the fields of `Sys`; `os.Exit(1)`
  ends the run with the file system as it is at that point.
-/

namespace Smallsheep

/-- A `float64`, carried as its 64-bit IEEE-754 pattern. -/
structure float64 where
  bits : Nat
  deriving DecidableEq, Repr

/-- Input record, `type Product struct`. -/
structure Product where
  ProductTitle : String
  IsPlainYogurt : Bool
  Confidence : float64
  IsNonfat : Bool
  deriving DecidableEq, Repr

/-- Output record, `type TransformedProduct struct`. -/
structure TransformedProduct where
  ProductTitle : String
  IsYogurt : Bool
  IsPlain : Bool
  IsNonfat : Bool
  Confidence : float64
  deriving DecidableEq, Repr

/-- The ASCII branch of `unicode.ToLower`: `A`..`Z` are shifted by 32. -/
def asciiLower (c : Char) : Char :=
  if 65 ≤ c.toNat ∧ c.toNat ≤ 90 then Char.ofNat (c.toNat + 32) else c

/-- The rune mapping `unicode.ToLower`: ASCII runes are handled directly, any
other rune is looked up in the Unicode case table `u`. -/
def lowerRune (u : Char → Char) (c : Char) : Char :=
  if c.toNat < 128 then asciiLower c else u c

/-- The function `strings.ToLower`: every rune is mapped by `unicode.ToLower`. -/
def ToLower (u : Char → Char) (s : String) : String :=
  ⟨s.data.map (lowerRune u)⟩

/-- The function `strings.HasPrefix` on rune sequences. -/
def HasPrefix : List Char → List Char → Bool
  | _, [] => true
  | [], _ :: _ => false
  | c :: cs, p :: ps => c == p && HasPrefix cs ps

/-- Search of `substr` at every start position of `s`. -/
def containsAt : List Char → List Char → Bool
  | [], substr => HasPrefix [] substr
  | c :: cs, substr => HasPrefix (c :: cs) substr || containsAt cs substr

/-- The function `strings.Contains`: `substr` occurs somewhere within `s`. -/
def Contains (s substr : String) : Bool :=
  containsAt s.data substr.data

/-- The slice literal `exclusionTerms` of `isYogurtProduct`. -/
def exclusionTerms : List String :=
  [ "kefir",
    "alternative",
    "dairy-free",
    "dairy free",
    "non-dairy",
    "almondmilk",
    "cashewmilk",
    "coconut",
    "powder puff",
    "cushion puff",
    "drinkable",
    "strainer",
    "base",
    "starter culture",
    "extract" ]

/-- The `for _, term := range exclusionTerms` loop: the flag is carried through
the remaining terms and the loop stops at the first term found (`break`). -/
def exclusionLoop (title : String) : List String → Bool → Bool
  | [], containsExclusionTerm => containsExclusionTerm
  | term :: rest, containsExclusionTerm =>
    if Contains title term then true
    else exclusionLoop title rest containsExclusionTerm

/-- The function `isYogurtProduct` of `src/main.go`. -/
def isYogurtProduct (u : Char → Char) (title : String) : Bool :=
  let title := ToLower u title
  let containsYogurtTerm :=
    Contains title "yogurt" || Contains title "skyr" || Contains title "yoghurt"
  let containsExclusionTerm := exclusionLoop title exclusionTerms false
  containsYogurtTerm && !containsExclusionTerm

/-- The variables the transform loop of `main` updates. -/
structure LoopState where
  transformedProducts : List TransformedProduct
  yogurtCount : Nat
  plainCount : Nat
  deriving DecidableEq, Repr

/-- One iteration of `for _, product := range products` in `main`. -/
def loopBody (u : Char → Char) (st : LoopState) (product : Product) : LoopState :=
  let isYogurt := isYogurtProduct u product.ProductTitle
  let isPlain := if isYogurt then product.IsPlainYogurt else false
  let yogurtCount := if isYogurt then st.yogurtCount + 1 else st.yogurtCount
  let plainCount := if isPlain then st.plainCount + 1 else st.plainCount
  let transformedProduct : TransformedProduct :=
    { ProductTitle := product.ProductTitle
      IsYogurt := isYogurt
      IsPlain := isPlain
      IsNonfat := product.IsNonfat
      Confidence := product.Confidence }
  { transformedProducts := st.transformedProducts ++ [transformedProduct]
    yogurtCount := yogurtCount
    plainCount := plainCount }

/-- The transform section of `main`: the loop run from the empty slice and
both counters at zero. -/
def transform (u : Char → Char) (products : List Product) : LoopState :=
  products.foldl (loopBody u) ⟨[], 0, 0⟩

/-- The record one iteration appends for the input record `product`. -/
def recordOf (u : Char → Char) (product : Product) : TransformedProduct :=
  let isYogurt := isYogurtProduct u product.ProductTitle
  let isPlain := if isYogurt then product.IsPlainYogurt else false
  { ProductTitle := product.ProductTitle
    IsYogurt := isYogurt
    IsPlain := isPlain
    IsNonfat := product.IsNonfat
    Confidence := product.Confidence }

/-- The `float64` nearest to the decimal literal `0.9`. -/
def float64_0_9 : float64 :=
  ⟨0x3FECCCCCCCCCCCCD⟩

/-! ## Letter case of an occurrence

The claims speak of a term occurring in a title "in any mix of upper and lower
case". The predicates below say so without reference to `ToLower`. -/

/-- The upper-case form of an ASCII letter `a`..`z`; other runes are kept. -/
def upperOf (c : Char) : Char :=
  if 97 ≤ c.toNat ∧ c.toNat ≤ 122 then Char.ofNat (c.toNat - 32) else c

/-- Rune `a` of a title spells the term rune `b`, in lower or upper case. -/
def sameLetter (a b : Char) : Bool :=
  a == b || a == upperOf b

/-- The rune sequence `w` spells the term `t` rune by rune, each letter in
either case. -/
def isCaseVariant : List Char → List Char → Bool
  | [], [] => true
  | a :: w, b :: t => sameLetter a b && isCaseVariant w t
  | _, _ => false

/-- The three yogurt terms tested by `isYogurtProduct`. -/
def yogurtTerms : List String :=
  ["yogurt", "skyr", "yoghurt"]

/-- A rune that is ASCII and not an upper-case letter. -/
def isPlainLower (c : Char) : Bool :=
  decide (c.toNat < 128) && !decide (65 ≤ c.toNat ∧ c.toNat ≤ 90)

/-- Runes `a` and `b` are equal or are the two cases of one ASCII letter. -/
def caseEq (a b : Char) : Bool :=
  a == b || a == upperOf b || b == upperOf a

/-- Two rune sequences differ only in the case of letters. -/
def differOnlyInCase : List Char → List Char → Bool
  | [], [] => true
  | a :: s, b :: t => caseEq a b && differOnlyInCase s t
  | _, _ => false

/-- The rune mapping `unicode.ToUpper`: ASCII runes are handled directly, any
other rune is looked up in the Unicode case table `U`. -/
def upperRune (U : Char → Char) (c : Char) : Char :=
  if c.toNat < 128 then upperOf c else U c

/-- The function `strings.ToUpper`: every rune is mapped by `unicode.ToUpper`. -/
def ToUpper (U : Char → Char) (s : String) : String :=
  ⟨s.data.map (upperRune U)⟩

/-! ## The run of the program

`main` is modelled as a function of `os.Args` and of the state of the file
system. The operations of the operating system and of `encoding/json` are not
part of this repository; they are the fields of `Sys`. -/

/-- A byte slice. -/
abbrev Bytes := List Nat

/-- The operations `main` calls, over file system states `FS`. An error carries
its message. `WriteFile` returns the error, if any, and the file system it
leaves behind. -/
structure Sys (FS : Type) where
  ReadFile : FS → String → Except String Bytes
  Unmarshal : Bytes → Except String (List Product)
  MarshalIndent : List TransformedProduct → Except String Bytes
  WriteFile : FS → String → Bytes → Option String × FS

/-- What a run leaves behind: the exit status, the lines printed, the calls to
`os.WriteFile` it made and the final file system. -/
structure RunResult (FS : Type) where
  exitCode : Nat
  stdout : List String
  writes : List (String × Bytes)
  fs : FS

/-- The line printed after decoding. -/
def parsedLine (products : List Product) : String :=
  "Successfully parsed " ++ toString products.length ++ " products\n"

/-- The two lines printed under `// Output statistics`. -/
def statLines (products : List Product) (st : LoopState) : List String :=
  [ "Total yogurt products: " ++ toString st.yogurtCount ++ " out of " ++
      toString products.length ++ "\n",
    "Total plain products: " ++ toString st.plainCount ++ " out of " ++
      toString products.length ++ "\n" ]

/-- The function `main` of `src/main.go`; `Args` is `os.Args`, the program name
included. Each `os.Exit(1)` ends the run at once. -/
def main {FS : Type} (sys : Sys FS) (u : Char → Char) (Args : List String) (fs : FS) :
    RunResult FS :=
  if Args.length ≠ 3 then
    ⟨1, ["Usage: ./transform-yogurt input.json output.json\n"], [], fs⟩
  else
    let inputFile := Args.getD 1 ""
    let outputFile := Args.getD 2 ""
    match sys.ReadFile fs inputFile with
    | .error err => ⟨1, ["Error reading input file: " ++ err ++ "\n"], [], fs⟩
    | .ok data =>
      match sys.Unmarshal data with
      | .error err => ⟨1, ["Error parsing JSON: " ++ err ++ "\n"], [], fs⟩
      | .ok products =>
        let st := transform u products
        let out := parsedLine products :: statLines products st
        match sys.MarshalIndent st.transformedProducts with
        | .error err => ⟨1, out ++ ["Error creating JSON output: " ++ err ++ "\n"], [], fs⟩
        | .ok outputData =>
          match sys.WriteFile fs outputFile outputData with
          | (some err, fs') =>
            ⟨1, out ++ ["Error writing output file: " ++ err ++ "\n"],
              [(outputFile, outputData)], fs'⟩
          | (none, fs') =>
            ⟨0, out ++ ["Transformation complete! Data written to " ++ outputFile ++ "\n"],
              [(outputFile, outputData)], fs'⟩

/-- A small instance of `Sys` on which `main` can be evaluated. The file system
is an association list from paths to contents; reading a path that is not in
it fails. Of JSON documents it knows only the empty array `[]`. -/
def listSys : Sys (List (String × Bytes)) where
  ReadFile := fun fs path =>
    match fs.lookup path with
    | some data => .ok data
    | none => .error ("open " ++ path ++ ": no such file or directory")
  Unmarshal := fun data =>
    if data = [91, 93] then .ok [] else .error "invalid character"
  MarshalIndent := fun tps =>
    if tps = [] then .ok [91, 93] else .error "unsupported value"
  WriteFile := fun fs path data => (none, (path, data) :: fs)

/-! ## Substring search -/

theorem HasPrefix_iff (s p : List Char) : HasPrefix s p = true ↔ p <+: s := by
  induction p generalizing s with
  | nil => simp [HasPrefix]
  | cons a p ih =>
    cases s with
    | nil => simp [HasPrefix]
    | cons c cs =>
      simp only [HasPrefix, Bool.and_eq_true, beq_iff_eq, ih, List.cons_prefix_cons]
      constructor
      · rintro ⟨h, hp⟩
        exact ⟨h.symm, hp⟩
      · rintro ⟨h, hp⟩
        exact ⟨h.symm, hp⟩

theorem containsAt_iff (s p : List Char) : containsAt s p = true ↔ p <:+: s := by
  induction s with
  | nil =>
    simp only [containsAt, HasPrefix_iff, List.prefix_nil, List.infix_nil]
  | cons c cs ih =>
    simp only [containsAt, Bool.or_eq_true, HasPrefix_iff, ih, List.infix_cons_iff]

theorem Contains_iff (s substr : String) :
    Contains s substr = true ↔ substr.data <:+: s.data :=
  containsAt_iff s.data substr.data

/-- The early-exit loop computes the disjunction of the incoming flag with
"some term is found". -/
theorem exclusionLoop_eq_any (title : String) (terms : List String) (acc : Bool) :
    exclusionLoop title terms acc = (terms.any (fun term => Contains title term) || acc) := by
  induction terms with
  | nil => simp [exclusionLoop]
  | cons term rest ih =>
    simp only [exclusionLoop, List.any_cons, ih]
    cases Contains title term <;> simp

theorem exclusionLoop_false_iff (title : String) (terms : List String) :
    exclusionLoop title terms false = false ↔
      ∀ e ∈ terms, ¬ e.data <:+: title.data := by
  rw [exclusionLoop_eq_any]
  simp only [Bool.or_false, List.any_eq_false, Contains_iff]

theorem exclusionLoop_true_iff (title : String) (terms : List String) :
    exclusionLoop title terms false = true ↔
      ∃ e ∈ terms, e.data <:+: title.data := by
  rw [exclusionLoop_eq_any]
  simp only [Bool.or_false, List.any_eq_true, Contains_iff]

/-- What `isYogurtProduct` computes, with substring search read as the infix
relation on rune sequences. -/
theorem isYogurtProduct_iff (u : Char → Char) (title : String) :
    isYogurtProduct u title = true ↔
      ((("yogurt" : String).data <:+: (ToLower u title).data ∨
        ("skyr" : String).data <:+: (ToLower u title).data ∨
        ("yoghurt" : String).data <:+: (ToLower u title).data) ∧
       ∀ e ∈ exclusionTerms, ¬ e.data <:+: (ToLower u title).data) := by
  simp only [isYogurtProduct, Bool.and_eq_true, Bool.or_eq_true, Bool.not_eq_true',
    exclusionLoop_false_iff, Contains_iff, or_assoc]

/-! ## Lower-casing an occurrence -/

theorem toNat_ofNat_small (n : Nat) (h : n < 55296) : (Char.ofNat n).toNat = n := by
  have hv : n.isValidChar := Or.inl h
  rw [Char.ofNat, dif_pos hv]
  rfl

theorem lowerRune_of_sameLetter (u : Char → Char) (a b : Char)
    (hb : isPlainLower b = true) (hab : sameLetter a b = true) : lowerRune u a = b := by
  simp only [isPlainLower, Bool.and_eq_true, decide_eq_true_eq, Bool.not_eq_true',
    decide_eq_false_iff_not] at hb
  obtain ⟨hlt, hnu⟩ := hb
  simp only [sameLetter, Bool.or_eq_true, beq_iff_eq] at hab
  rcases hab with rfl | hab
  · simp only [lowerRune, hlt, if_true, asciiLower, hnu, if_false]
  · by_cases hz : 97 ≤ b.toNat ∧ b.toNat ≤ 122
    · have hval : a.toNat = b.toNat - 32 := by
        rw [hab, upperOf, if_pos hz]
        exact toNat_ofNat_small _ (by omega)
      have h1 : a.toNat < 128 := by omega
      have h2 : 65 ≤ a.toNat ∧ a.toNat ≤ 90 := by omega
      have h3 : a.toNat + 32 = b.toNat := by omega
      simp only [lowerRune, h1, if_true, asciiLower, h2, and_self, h3, Char.ofNat_toNat]
    · rw [upperOf, if_neg hz] at hab
      subst hab
      simp only [lowerRune, hlt, if_true, asciiLower, hnu, if_false]

theorem map_lowerRune_of_isCaseVariant (u : Char → Char) (w t : List Char)
    (ht : ∀ b ∈ t, isPlainLower b = true) (hw : isCaseVariant w t = true) :
    w.map (lowerRune u) = t := by
  induction w generalizing t with
  | nil =>
    cases t with
    | nil => rfl
    | cons b t => simp [isCaseVariant] at hw
  | cons a w ih =>
    cases t with
    | nil => simp [isCaseVariant] at hw
    | cons b t =>
      simp only [isCaseVariant, Bool.and_eq_true] at hw
      simp only [List.map_cons, List.cons.injEq]
      exact ⟨lowerRune_of_sameLetter u a b (ht b (List.mem_cons_self _ _)) hw.1,
        ih t (fun c hc => ht c (List.mem_cons_of_mem _ hc)) hw.2⟩

theorem infix_map_lowerRune (u : Char → Char) (w s : List Char) (h : w <:+: s) :
    w.map (lowerRune u) <:+: s.map (lowerRune u) := by
  obtain ⟨l, r, rfl⟩ := h
  exact ⟨l.map (lowerRune u), r.map (lowerRune u), by simp⟩

theorem yogurtTerms_plainLower :
    ∀ y ∈ yogurtTerms, ∀ b ∈ y.data, isPlainLower b = true := by
  decide

theorem exclusionTerms_plainLower :
    ∀ e ∈ exclusionTerms, ∀ b ∈ e.data, isPlainLower b = true := by
  decide

/-- An occurrence of a lower-case ASCII term in any letter case becomes an
occurrence of the term itself after `ToLower`. -/
theorem infix_ToLower_of_isCaseVariant (u : Char → Char) (title : String)
    (t w : List Char) (ht : ∀ b ∈ t, isPlainLower b = true)
    (hw : isCaseVariant w t = true) (hin : w <:+: title.data) :
    t <:+: (ToLower u title).data := by
  have h := infix_map_lowerRune u w title.data hin
  rw [map_lowerRune_of_isCaseVariant u w t ht hw] at h
  exact h

/-! ## Claims about the classifier -/

/-- C1: for every title, `isYogurtProduct` is true if and only if the
lowercased title contains at least one of "yogurt", "skyr", "yoghurt" and
contains none of the fifteen exclusion substrings; the loop with `break` agrees
with the plain "some term is a substring" reading. -/
theorem C1_isYogurtProduct_iff (u : Char → Char) (t : String) :
    (isYogurtProduct u t = true ↔
      ((∃ y ∈ (["yogurt", "skyr", "yoghurt"] : List String),
          y.data <:+: (ToLower u t).data) ∧
       ¬ ∃ e ∈ (["kefir", "alternative", "dairy-free", "dairy free", "non-dairy",
                 "almondmilk", "cashewmilk", "coconut", "powder puff",
                 "cushion puff", "drinkable", "strainer", "base",
                 "starter culture", "extract"] : List String),
          e.data <:+: (ToLower u t).data)) ∧
    exclusionLoop (ToLower u t) exclusionTerms false =
      exclusionTerms.any (fun e => Contains (ToLower u t) e) := by
  refine ⟨?_, by rw [exclusionLoop_eq_any, Bool.or_false]⟩
  rw [isYogurtProduct_iff]
  simp only [exclusionTerms, List.mem_cons, List.mem_singleton, exists_eq_or_imp,
    exists_eq_left, forall_eq_or_imp, forall_eq, not_or, List.not_mem_nil, false_and,
    exists_false, or_false, IsEmpty.forall_iff, and_true, or_assoc, and_assoc]

/-- C2: a title that contains "yogurt", "skyr" or "yoghurt" in any mix of
upper and lower case, and whose lowercased form contains no exclusion term, is
classified as yogurt. -/
theorem C2_yogurt_term_without_exclusion (u : Char → Char) (title y : String)
    (w : List Char)
    (hy : y ∈ (["yogurt", "skyr", "yoghurt"] : List String))
    (hw : isCaseVariant w y.data = true)
    (hin : w <:+: title.data)
    (hex : ∀ e ∈ (["kefir", "alternative", "dairy-free", "dairy free", "non-dairy",
                   "almondmilk", "cashewmilk", "coconut", "powder puff",
                   "cushion puff", "drinkable", "strainer", "base",
                   "starter culture", "extract"] : List String),
             ¬ e.data <:+: (ToLower u title).data) :
    isYogurtProduct u title = true := by
  have hocc : y.data <:+: (ToLower u title).data :=
    infix_ToLower_of_isCaseVariant u title y.data w (yogurtTerms_plainLower y hy) hw hin
  rw [isYogurtProduct_iff]
  refine ⟨?_, hex⟩
  simp only [List.mem_cons, List.mem_singleton, List.not_mem_nil, or_false] at hy
  rcases hy with rfl | rfl | rfl
  · exact Or.inl hocc
  · exact Or.inr (Or.inl hocc)
  · exact Or.inr (Or.inr hocc)

/-- C2 at the title "Greek YoGuRT": the mixed-case occurrence "YoGuRT" spells
"yogurt" and no exclusion term occurs. -/
theorem C2_yogurt_term_without_exclusion_witness :
    isCaseVariant ("YoGuRT" : String).data ("yogurt" : String).data = true ∧
      ("YoGuRT" : String).data <:+: ("Greek YoGuRT" : String).data ∧
      isYogurtProduct (fun c => c) "Greek YoGuRT" = true :=
  ⟨by decide, ⟨("Greek " : String).data, [], by decide⟩,
    C2_yogurt_term_without_exclusion (fun c => c) "Greek YoGuRT" "yogurt"
      ("YoGuRT" : String).data (by decide) (by decide)
      ⟨("Greek " : String).data, [], by decide⟩ (by decide)⟩

/-- C3: a title that contains an exclusion term as a substring, in any letter
case, is classified as not yogurt, whatever else the title contains. -/
theorem C3_exclusion_dominates (u : Char → Char) (title e : String) (w : List Char)
    (he : e ∈ (["kefir", "alternative", "dairy-free", "dairy free", "non-dairy",
                "almondmilk", "cashewmilk", "coconut", "powder puff",
                "cushion puff", "drinkable", "strainer", "base",
                "starter culture", "extract"] : List String))
    (hw : isCaseVariant w e.data = true)
    (hin : w <:+: title.data) :
    isYogurtProduct u title = false := by
  have hocc : e.data <:+: (ToLower u title).data :=
    infix_ToLower_of_isCaseVariant u title e.data w (exclusionTerms_plainLower e he) hw hin
  have hloop : exclusionLoop (ToLower u title) exclusionTerms false = true :=
    (exclusionLoop_true_iff _ _).2 ⟨e, he, hocc⟩
  simp only [isYogurtProduct, hloop, Bool.not_true, Bool.and_false]

/-- C3 at the title "Plain Yogurt STARTER Culture": the yogurt term is present
and the exclusion term "starter culture" occurs in mixed case. -/
theorem C3_exclusion_dominates_witness :
    isCaseVariant ("STARTER Culture" : String).data ("starter culture" : String).data = true ∧
      ("STARTER Culture" : String).data <:+: ("Plain Yogurt STARTER Culture" : String).data ∧
      isYogurtProduct (fun c => c) "Plain Yogurt STARTER Culture" = false :=
  ⟨by decide, ⟨("Plain Yogurt " : String).data, [], by decide⟩,
    C3_exclusion_dominates (fun c => c) "Plain Yogurt STARTER Culture" "starter culture"
      ("STARTER Culture" : String).data (by decide) (by decide)
      ⟨("Plain Yogurt " : String).data, [], by decide⟩⟩

/-! ## The transform loop -/

theorem recordOf_eq (u : Char → Char) (p : Product) :
    recordOf u p =
      { ProductTitle := p.ProductTitle
        IsYogurt := isYogurtProduct u p.ProductTitle
        IsPlain := isYogurtProduct u p.ProductTitle && p.IsPlainYogurt
        IsNonfat := p.IsNonfat
        Confidence := p.Confidence } := by
  cases h : isYogurtProduct u p.ProductTitle <;> simp [recordOf, h]

theorem loopBody_eq (u : Char → Char) (st : LoopState) (p : Product) :
    loopBody u st p =
      { transformedProducts := st.transformedProducts ++ [recordOf u p]
        yogurtCount := st.yogurtCount + (if (recordOf u p).IsYogurt then 1 else 0)
        plainCount := st.plainCount + (if (recordOf u p).IsPlain then 1 else 0) } := by
  rw [recordOf_eq]
  cases h : isYogurtProduct u p.ProductTitle <;> cases hp : p.IsPlainYogurt <;>
    simp [loopBody, h, hp]

theorem foldl_loopBody (u : Char → Char) (ps : List Product) (st : LoopState) :
    ps.foldl (loopBody u) st =
      { transformedProducts := st.transformedProducts ++ ps.map (recordOf u)
        yogurtCount :=
          st.yogurtCount + (ps.map (recordOf u)).countP (fun tp => tp.IsYogurt)
        plainCount :=
          st.plainCount + (ps.map (recordOf u)).countP (fun tp => tp.IsPlain) } := by
  induction ps generalizing st with
  | nil => simp
  | cons p ps ih =>
    rw [List.foldl_cons, ih, loopBody_eq]
    simp only [List.map_cons, List.append_assoc, List.singleton_append, List.countP_cons,
      LoopState.mk.injEq, true_and]
    constructor <;> omega

theorem transform_eq (u : Char → Char) (ps : List Product) :
    transform u ps =
      { transformedProducts := ps.map (recordOf u)
        yogurtCount := (ps.map (recordOf u)).countP (fun tp => tp.IsYogurt)
        plainCount := (ps.map (recordOf u)).countP (fun tp => tp.IsPlain) } := by
  rw [transform, foldl_loopBody]
  simp

theorem transform_products (u : Char → Char) (ps : List Product) :
    (transform u ps).transformedProducts = ps.map (recordOf u) := by
  rw [transform_eq]

/-- On an all-ASCII title the Unicode table is never consulted. -/
theorem isYogurtProduct_ascii (u : Char → Char) (title : String)
    (h : ∀ c ∈ title.data, c.toNat < 128) :
    isYogurtProduct u title = isYogurtProduct (fun c => c) title := by
  have hl : ToLower u title = ToLower (fun c => c) title := by
    have hm : title.data.map (lowerRune u) = title.data.map (lowerRune (fun c => c)) := by
      apply List.map_congr_left
      intro c hc
      simp only [lowerRune, h c hc, if_true]
    simp only [ToLower, hm]
  simp only [isYogurtProduct, hl]

/-! ## Claims about the transform loop -/

/-- C4: the transform loop yields an output sequence of the same length as the
input, and at every index the output record carries the title of the input
record at that index: nothing is dropped, duplicated or reordered. -/
theorem C4_length_and_order (u : Char → Char) (products : List Product) :
    (transform u products).transformedProducts.length = products.length ∧
      ∀ i : Nat,
        ((transform u products).transformedProducts[i]?).map (fun tp => tp.ProductTitle) =
          (products[i]?).map (fun p => p.ProductTitle) := by
  rw [transform_products]
  refine ⟨by simp, fun i => ?_⟩
  rw [List.getElem?_map]
  cases products[i]? with
  | none => rfl
  | some p => simp [recordOf_eq]

/-- C5: in every record of the output, `is_plain` true implies `is_yogurt`
true; equivalently `is_yogurt` false forces `is_plain` false, whatever the
input's `is_plain_yogurt` was. -/
theorem C5_plain_implies_yogurt (u : Char → Char) (products : List Product)
    (tp : TransformedProduct)
    (hmem : tp ∈ (transform u products).transformedProducts) :
    (tp.IsPlain = true → tp.IsYogurt = true) ∧
      (tp.IsYogurt = false → tp.IsPlain = false) := by
  rw [transform_products, List.mem_map] at hmem
  obtain ⟨p, _, rfl⟩ := hmem
  rw [recordOf_eq]
  cases isYogurtProduct u p.ProductTitle <;> simp

/-- C5 at a one-record input whose title is not a yogurt and whose
`is_plain_yogurt` is true: the output record has both flags false. -/
theorem C5_plain_implies_yogurt_witness :
    (⟨"Whole Milk", false, false, true, ⟨0⟩⟩ : TransformedProduct) ∈
        (transform (fun c => c) [⟨"Whole Milk", true, ⟨0⟩, true⟩]).transformedProducts ∧
      (((⟨"Whole Milk", false, false, true, ⟨0⟩⟩ : TransformedProduct).IsPlain = true →
          (⟨"Whole Milk", false, false, true, ⟨0⟩⟩ : TransformedProduct).IsYogurt = true) ∧
        ((⟨"Whole Milk", false, false, true, ⟨0⟩⟩ : TransformedProduct).IsYogurt = false →
          (⟨"Whole Milk", false, false, true, ⟨0⟩⟩ : TransformedProduct).IsPlain = false)) :=
  ⟨by decide,
    C5_plain_implies_yogurt (fun c => c) [⟨"Whole Milk", true, ⟨0⟩, true⟩]
      ⟨"Whole Milk", false, false, true, ⟨0⟩⟩ (by decide)⟩

/-- C6: at every index the output record has `is_yogurt` equal to
`isYogurtProduct` of the input title, and `is_plain` equal to that value
conjoined with the input's `is_plain_yogurt`. -/
theorem C6_derived_flags (u : Char → Char) (products : List Product) (i : Nat) :
    ((transform u products).transformedProducts[i]?).map
        (fun tp => (tp.IsYogurt, tp.IsPlain)) =
      (products[i]?).map
        (fun p => (isYogurtProduct u p.ProductTitle,
          isYogurtProduct u p.ProductTitle && p.IsPlainYogurt)) := by
  rw [transform_products, List.getElem?_map]
  cases products[i]? with
  | none => rfl
  | some p => simp [recordOf_eq]

/-- C7: at every index the output record's `confidence` and `is_nonfat` are
those of the input record, whatever the title and the classification. -/
theorem C7_copied_fields (u : Char → Char) (products : List Product) (i : Nat) :
    ((transform u products).transformedProducts[i]?).map
        (fun tp => (tp.Confidence, tp.IsNonfat)) =
      (products[i]?).map (fun p => (p.Confidence, p.IsNonfat)) := by
  rw [transform_products, List.getElem?_map]
  cases products[i]? with
  | none => rfl
  | some p => simp [recordOf_eq]

/-- C8: the yogurt count is the number of output records with `is_yogurt`
true, and the plain count the number of output records with `is_plain` true. -/
theorem C8_counts (u : Char → Char) (products : List Product) :
    (transform u products).yogurtCount =
        (transform u products).transformedProducts.countP (fun tp => tp.IsYogurt) ∧
      (transform u products).plainCount =
        (transform u products).transformedProducts.countP (fun tp => tp.IsPlain) := by
  rw [transform_eq]
  exact ⟨rfl, rfl⟩

theorem chobani_isYogurt (u : Char → Char) :
    isYogurtProduct u "Chobani Plain Yogurt" = true := by
  rw [isYogurtProduct_ascii u _ (by decide)]
  decide

theorem coconut_not_isYogurt (u : Char → Char) :
    isYogurtProduct u "Coconut Yogurt Alternative" = false := by
  rw [isYogurtProduct_ascii u _ (by decide)]
  decide

/-- C9: the one-record input with title "Chobani Plain Yogurt",
`is_plain_yogurt` true, `confidence` 0.9 and `is_nonfat` false is transformed
into exactly the one record with that title, `is_yogurt` true, `is_plain` true,
`is_nonfat` false and `confidence` 0.9. -/
theorem C9_chobani_scenario (u : Char → Char) :
    (transform u
        [{ ProductTitle := "Chobani Plain Yogurt", IsPlainYogurt := true,
           Confidence := float64_0_9, IsNonfat := false }]).transformedProducts =
      [{ ProductTitle := "Chobani Plain Yogurt", IsYogurt := true, IsPlain := true,
         IsNonfat := false, Confidence := float64_0_9 }] := by
  rw [transform_products]
  simp [recordOf_eq, chobani_isYogurt]

/-- C10: a record titled "Coconut Yogurt Alternative" is transformed into a
record with `is_yogurt` false and `is_plain` false, for either value of
`is_plain_yogurt`. -/
theorem C10_coconut_scenario (u : Char → Char) (isPlainYogurt isNonfat : Bool)
    (confidence : float64) :
    (transform u
        [{ ProductTitle := "Coconut Yogurt Alternative", IsPlainYogurt := isPlainYogurt,
           Confidence := confidence, IsNonfat := isNonfat }]).transformedProducts =
      [{ ProductTitle := "Coconut Yogurt Alternative", IsYogurt := false, IsPlain := false,
         IsNonfat := isNonfat, Confidence := confidence }] := by
  rw [transform_products]
  simp [recordOf_eq, coconut_not_isYogurt]

theorem siggis_isYogurt (u : Char → Char) :
    isYogurtProduct u "Siggi's Skyr" = true := by
  rw [isYogurtProduct_ascii u _ (by decide)]
  decide

/-- C11: a record titled "Siggi's Skyr" whose `is_plain_yogurt` is false is
transformed into a record with `is_yogurt` true and `is_plain` false. -/
theorem C11_siggis_scenario (u : Char → Char) (isNonfat : Bool) (confidence : float64) :
    (transform u
        [{ ProductTitle := "Siggi's Skyr", IsPlainYogurt := false,
           Confidence := confidence, IsNonfat := isNonfat }]).transformedProducts =
      [{ ProductTitle := "Siggi's Skyr", IsYogurt := true, IsPlain := false,
         IsNonfat := isNonfat, Confidence := confidence }] := by
  rw [transform_products]
  simp [recordOf_eq, siggis_isYogurt]

/-- C12: for the empty input sequence the transform yields the empty output
sequence and both counters at zero, and the console reports 0 parsed products,
0 yogurt products and 0 plain products. -/
theorem C12_empty_input (u : Char → Char) :
    transform u [] = { transformedProducts := [], yogurtCount := 0, plainCount := 0 } ∧
      parsedLine [] = "Successfully parsed 0 products\n" ∧
      statLines [] (transform u []) =
        [ "Total yogurt products: 0 out of 0\n",
          "Total plain products: 0 out of 0\n" ] := by
  have h : transform u [] = ⟨[], 0, 0⟩ := rfl
  rw [h]
  exact ⟨rfl, by decide, by decide⟩

/-! ## Claims about the run -/

/-- C13: when the argument count is wrong, or the input file cannot be read, or
its content does not decode, the run ends with exit status 1, makes no call to
`os.WriteFile` and leaves the file system unchanged. -/
theorem C13_early_failure {FS : Type} (sys : Sys FS) (u : Char → Char)
    (Args : List String) (fs : FS)
    (hfail : Args.length ≠ 3 ∨
      (∃ err, sys.ReadFile fs (Args.getD 1 "") = .error err) ∨
      (∃ data err, sys.ReadFile fs (Args.getD 1 "") = .ok data ∧
        sys.Unmarshal data = .error err)) :
    (main sys u Args fs).exitCode = 1 ∧
      (main sys u Args fs).writes = [] ∧
      (main sys u Args fs).fs = fs := by
  by_cases hlen : Args.length ≠ 3
  · simp only [main, if_pos hlen, and_self]
  · rcases hfail with h | ⟨err, h⟩ | ⟨data, err, h, hd⟩
    · exact absurd h hlen
    · simp only [main, if_neg hlen, h, and_self]
    · simp only [main, if_neg hlen, h, hd, and_self]

/-- C13 at two arguments whose input path does not exist: the run on the empty
file system exits with status 1, writes nothing and leaves it empty. -/
theorem C13_early_failure_witness :
    listSys.ReadFile [] "missing.json" =
        .error "open missing.json: no such file or directory" ∧
      (main listSys (fun c => c) ["transform-yogurt", "missing.json", "out.json"] []).exitCode
        = 1 ∧
      (main listSys (fun c => c) ["transform-yogurt", "missing.json", "out.json"] []).writes
        = [] ∧
      (main listSys (fun c => c) ["transform-yogurt", "missing.json", "out.json"] []).fs
        = [] :=
  ⟨rfl, C13_early_failure listSys (fun c => c)
    ["transform-yogurt", "missing.json", "out.json"] []
    (Or.inr (Or.inl ⟨"open missing.json: no such file or directory", rfl⟩))⟩

/-- C14: the exit status is 0 exactly when there are two arguments and the
read, the decode, the encode and the write all succeed; in every other case it
is 1. -/
theorem C14_exit_status {FS : Type} (sys : Sys FS) (u : Char → Char)
    (Args : List String) (fs : FS) :
    ((main sys u Args fs).exitCode = 0 ↔
        (Args.length = 3 ∧
          ∃ data products outputData fs',
            sys.ReadFile fs (Args.getD 1 "") = .ok data ∧
            sys.Unmarshal data = .ok products ∧
            sys.MarshalIndent (transform u products).transformedProducts = .ok outputData ∧
            sys.WriteFile fs (Args.getD 2 "") outputData = (none, fs'))) ∧
      ((main sys u Args fs).exitCode ≠ 0 → (main sys u Args fs).exitCode = 1) := by
  by_cases hlen : Args.length ≠ 3
  · simp only [main, if_pos hlen]
    exact ⟨⟨fun h => absurd h (by decide), fun h => absurd h.1 hlen⟩, fun _ => trivial⟩
  · have hlen3 : Args.length = 3 := not_not.mp hlen
    cases hr : sys.ReadFile fs (Args.getD 1 "") with
    | error err =>
      simp only [main, if_neg hlen, hr]
      simp
    | ok data =>
      cases hd : sys.Unmarshal data with
      | error err =>
        simp only [main, if_neg hlen, hr, hd]
        simp [hd]
      | ok products =>
        cases hm : sys.MarshalIndent (transform u products).transformedProducts with
        | error err =>
          simp only [main, if_neg hlen, hr, hd, hm]
          refine ⟨⟨fun h => absurd h (by decide), ?_⟩, fun _ => trivial⟩
          rintro ⟨_, data', products', outputData', fs'', h1, h2, h3, _⟩
          cases h1
          rw [hd] at h2
          cases h2
          rw [hm] at h3
          cases h3
        | ok outputData =>
          rcases hw : sys.WriteFile fs (Args.getD 2 "") outputData with ⟨e, fs'⟩
          cases e with
          | none =>
            simp only [main, if_neg hlen, hr, hd, hm, hw]
            exact ⟨⟨fun _ => ⟨hlen3, data, products, outputData, fs', rfl, hd, hm, hw⟩,
              fun _ => trivial⟩, fun h => absurd rfl h⟩
          | some err =>
            simp only [main, if_neg hlen, hr, hd, hm, hw]
            refine ⟨⟨fun h => absurd h (by decide), ?_⟩, fun _ => trivial⟩
            rintro ⟨_, data', products', outputData', fs'', h1, h2, h3, h4⟩
            cases h1
            rw [hd] at h2
            cases h2
            rw [hm] at h3
            cases h3
            rw [hw] at h4
            cases h4

/-! ## Case-insensitivity and the breadth of "base" -/

theorem isYogurtProduct_congr (u : Char → Char) (s t : String)
    (h : (ToLower u s).data = (ToLower u t).data) :
    isYogurtProduct u s = isYogurtProduct u t := by
  have h' : ToLower u s = ToLower u t := by
    cases hs : ToLower u s
    cases ht : ToLower u t
    rw [hs, ht] at h
    simp only at h
    rw [h]
  simp only [isYogurtProduct, h']

theorem lowerRune_lowercase (u : Char → Char) (b : Char)
    (hz : 97 ≤ b.toNat ∧ b.toNat ≤ 122) :
    lowerRune u (upperOf b) = b ∧ lowerRune u b = b := by
  have hb : isPlainLower b = true := by
    simp only [isPlainLower, Bool.and_eq_true, decide_eq_true_eq, Bool.not_eq_true',
      decide_eq_false_iff_not]
    omega
  exact ⟨lowerRune_of_sameLetter u (upperOf b) b hb (by simp [sameLetter]),
    lowerRune_of_sameLetter u b b hb (by simp [sameLetter])⟩

theorem lowerRune_caseEq (u : Char → Char) (a b : Char) (h : caseEq a b = true) :
    lowerRune u a = lowerRune u b := by
  simp only [caseEq, Bool.or_eq_true, beq_iff_eq] at h
  rcases h with (rfl | h) | h
  · rfl
  · by_cases hz : 97 ≤ b.toNat ∧ b.toNat ≤ 122
    · rw [h, (lowerRune_lowercase u b hz).1, (lowerRune_lowercase u b hz).2]
    · rw [upperOf, if_neg hz] at h
      rw [h]
  · by_cases hz : 97 ≤ a.toNat ∧ a.toNat ≤ 122
    · rw [h, (lowerRune_lowercase u a hz).1, (lowerRune_lowercase u a hz).2]
    · rw [upperOf, if_neg hz] at h
      rw [h]

theorem map_lowerRune_of_differOnlyInCase (u : Char → Char) (s t : List Char)
    (h : differOnlyInCase s t = true) :
    s.map (lowerRune u) = t.map (lowerRune u) := by
  induction s generalizing t with
  | nil =>
    cases t with
    | nil => rfl
    | cons b t => simp [differOnlyInCase] at h
  | cons a s ih =>
    cases t with
    | nil => simp [differOnlyInCase] at h
    | cons b t =>
      simp only [differOnlyInCase, Bool.and_eq_true] at h
      simp only [List.map_cons, List.cons.injEq]
      exact ⟨lowerRune_caseEq u a b h.1, ih t h.2⟩

theorem lowerRune_upperRune (u U : Char → Char) (c : Char) (hc : c.toNat < 128) :
    lowerRune u (upperRune U c) = lowerRune u c := by
  rw [upperRune, if_pos hc]
  exact lowerRune_caseEq u (upperOf c) c (by simp [caseEq])

theorem lowerRune_lowerRune (u : Char → Char) (c : Char) (hc : c.toNat < 128) :
    lowerRune u (lowerRune u c) = lowerRune u c := by
  have h1 : lowerRune u c = asciiLower c := by rw [lowerRune, if_pos hc]
  by_cases hu : 65 ≤ c.toNat ∧ c.toNat ≤ 90
  · have h2 : asciiLower c = Char.ofNat (c.toNat + 32) := by rw [asciiLower, if_pos hu]
    have h3 : (Char.ofNat (c.toNat + 32)).toNat = c.toNat + 32 :=
      toNat_ofNat_small _ (by omega)
    rw [h1, h2]
    exact (lowerRune_lowercase u _ (by omega)).2
  · have h2 : asciiLower c = c := by rw [asciiLower, if_neg hu]
    rw [h1, h2, h1, h2]

/-- C15: classification is case-insensitive on ASCII titles: the result is the
same on the title, on its upper-cased form and on its lower-cased form, and on
any title that differs from it only in the case of letters. -/
theorem C15_case_insensitive (u U : Char → Char) (s t : String)
    (hs : ∀ c ∈ s.data, c.toNat < 128) :
    isYogurtProduct u (ToUpper U s) = isYogurtProduct u s ∧
      isYogurtProduct u (ToLower u s) = isYogurtProduct u s ∧
      (differOnlyInCase s.data t.data = true →
        isYogurtProduct u s = isYogurtProduct u t) := by
  refine ⟨?_, ?_, fun h => ?_⟩
  · apply isYogurtProduct_congr
    simp only [ToLower, ToUpper, List.map_map]
    apply List.map_congr_left
    intro c hc
    exact lowerRune_upperRune u U c (hs c hc)
  · apply isYogurtProduct_congr
    simp only [ToLower, List.map_map]
    apply List.map_congr_left
    intro c hc
    exact lowerRune_lowerRune u c (hs c hc)
  · apply isYogurtProduct_congr
    exact map_lowerRune_of_differOnlyInCase u s.data t.data h

/-- C15 at the ASCII title "Greek Yogurt" and its variant "gREEK yOGURT". -/
theorem C15_case_insensitive_witness :
    (∀ c ∈ ("Greek Yogurt" : String).data, c.toNat < 128) ∧
      differOnlyInCase ("Greek Yogurt" : String).data ("gREEK yOGURT" : String).data = true ∧
      isYogurtProduct (fun c => c) (ToUpper (fun c => c) "Greek Yogurt") =
        isYogurtProduct (fun c => c) "Greek Yogurt" ∧
      isYogurtProduct (fun c => c) (ToLower (fun c => c) "Greek Yogurt") =
        isYogurtProduct (fun c => c) "Greek Yogurt" ∧
      isYogurtProduct (fun c => c) "Greek Yogurt" =
        isYogurtProduct (fun c => c) "gREEK yOGURT" :=
  have h := C15_case_insensitive (fun c => c) (fun c => c) "Greek Yogurt" "gREEK yOGURT"
    (by decide)
  ⟨by decide, by decide, h.1, h.2.1, h.2.2 (by decide)⟩

theorem base_infix_database :
    ("base" : String).data <:+: ("database" : String).data :=
  ⟨("data" : String).data, [], by decide⟩

theorem base_infix_baseline :
    ("base" : String).data <:+: ("baseline" : String).data :=
  ⟨[], ("line" : String).data, by decide⟩

/-- C16: the exclusion term "base" matches inside longer words: a title whose
lowercased form contains "database" or "baseline" is classified as not yogurt,
even when it contains a yogurt term. -/
theorem C16_base_is_broad (u : Char → Char) (title : String)
    (h : ("database" : String).data <:+: (ToLower u title).data ∨
      ("baseline" : String).data <:+: (ToLower u title).data) :
    isYogurtProduct u title = false := by
  have hbase : ("base" : String).data <:+: (ToLower u title).data := by
    rcases h with h | h
    · exact List.IsInfix.trans base_infix_database h
    · exact List.IsInfix.trans base_infix_baseline h
  have hloop : exclusionLoop (ToLower u title) exclusionTerms false = true :=
    (exclusionLoop_true_iff _ _).2 ⟨"base", by decide, hbase⟩
  simp only [isYogurtProduct, hloop, Bool.not_true, Bool.and_false]

/-- C16 at the title "Greek Yogurt Baseline", which contains the yogurt term
and, lowercased, the word "baseline". -/
theorem C16_base_is_broad_witness :
    ("yogurt" : String).data <:+:
        (ToLower (fun c => c) "Greek Yogurt Baseline").data ∧
      ("baseline" : String).data <:+:
        (ToLower (fun c => c) "Greek Yogurt Baseline").data ∧
      isYogurtProduct (fun c => c) "Greek Yogurt Baseline" = false :=
  ⟨⟨("greek " : String).data, (" baseline" : String).data, by decide⟩,
    ⟨("greek yogurt " : String).data, [], by decide⟩,
    C16_base_is_broad (fun c => c) "Greek Yogurt Baseline"
      (Or.inr ⟨("greek yogurt " : String).data, [], by decide⟩)⟩

/-! ## Further properties of the transform loop -/

/-- C17: the counts of the transform satisfy
plain count ≤ yogurt count ≤ number of input records. -/
theorem C17_counts_ordered (u : Char → Char) (products : List Product) :
    (transform u products).plainCount ≤ (transform u products).yogurtCount ∧
      (transform u products).yogurtCount ≤ products.length := by
  rw [transform_eq]
  constructor
  · apply List.countP_mono_left
    intro tp htp hplain
    rw [List.mem_map] at htp
    obtain ⟨p, _, rfl⟩ := htp
    rw [recordOf_eq] at hplain ⊢
    simp only [Bool.and_eq_true] at hplain
    exact hplain.1
  · calc (products.map (recordOf u)).countP (fun tp => tp.IsYogurt)
        ≤ (products.map (recordOf u)).length := List.countP_le_length _
      _ = products.length := List.length_map _ _

/-- C18: the transform is compositional over concatenation: the output for
`xs ++ ys` is the output for `xs` followed by the output for `ys`, and each
count for `xs ++ ys` is the sum of the counts for `xs` and for `ys`. -/
theorem C18_append (u : Char → Char) (xs ys : List Product) :
    (transform u (xs ++ ys)).transformedProducts =
        (transform u xs).transformedProducts ++ (transform u ys).transformedProducts ∧
      (transform u (xs ++ ys)).yogurtCount =
        (transform u xs).yogurtCount + (transform u ys).yogurtCount ∧
      (transform u (xs ++ ys)).plainCount =
        (transform u xs).plainCount + (transform u ys).plainCount := by
  simp only [transform_eq, List.map_append, List.countP_append, and_self]

end Smallsheep
